import Mathlib

/-!
Verification development for the psych-agents Theory Council repository.

The repository ships the frontend (Next.js) sources and documentation; the
backend orchestration pipeline (LangGraph executor, trace recorder, SSE
transport, run registry) is described by the specification and by
`AGENT.md`/`README.md` but its Python sources are not present.  The pipeline
model below is therefore written from the specification's words; the frontend
consumer, report renderer and chat composer models are translated directly
from the TypeScript sources.
-/

namespace PsychAgents

/-- Stage identifiers of the fixed pipeline, as named in the spec's state
machine and in `AGENT.md`. -/
inductive StageKey
  | problem_framer
  | im_anchor
  | sct
  | sdt
  | wise
  | reasoned_action
  | env_impl
  | debate_moderator
  | theory_selector
  | integrator
  deriving DecidableEq, Repr

/-- The five configured theory-agent stages, in their fixed execution order. -/
def theoryKeys : List StageKey :=
  [.sct, .sdt, .wise, .reasoned_action, .env_impl]

/-- The ordered stage list of the pipeline state machine:
`problem_framer -> im_anchor -> five theory agents -> debate_moderator ->
theory_selector -> integrator`. -/
def stageOrder : List StageKey :=
  [.problem_framer, .im_anchor] ++ theoryKeys ++
    [.debate_moderator, .theory_selector, .integrator]

/-- Stable machine identifier of a stage (the `agent_key` strings). -/
def stageName : StageKey → String
  | .problem_framer => "problem_framer"
  | .im_anchor => "im_anchor"
  | .sct => "sct"
  | .sdt => "sdt"
  | .wise => "wise"
  | .reasoned_action => "reasoned_action"
  | .env_impl => "env_impl"
  | .debate_moderator => "debate_moderator"
  | .theory_selector => "theory_selector"
  | .integrator => "integrator"

/-- Human display label of a stage. -/
def stageLabel : StageKey → String
  | .problem_framer => "Problem Framer"
  | .im_anchor => "IM Anchor"
  | .sct => "Social Cognitive Theory Agent"
  | .sdt => "Self-Determination Theory Agent"
  | .wise => "Wise Intervention Agent"
  | .reasoned_action => "Reasoned Action Agent"
  | .env_impl => "Environment and Implementation Agent"
  | .debate_moderator => "Debate Moderator"
  | .theory_selector => "Theory Selector"
  | .integrator => "Integrator"

/-- Free-form metadata category tag recorded with each trace. -/
def stageCategory : StageKey → String
  | .problem_framer => "framing"
  | .im_anchor => "anchor"
  | .sct => "theory"
  | .sdt => "theory"
  | .wise => "theory"
  | .reasoned_action => "theory"
  | .env_impl => "theory"
  | .debate_moderator => "debate"
  | .theory_selector => "selection"
  | .integrator => "synthesis"

/-- Immutable record of one stage's execution (`AgentTrace` of
`frontend/lib/types.ts`); timestamps are modelled as natural-number
milliseconds. -/
structure AgentTrace where
  agent_key : StageKey
  agent_label : String
  output : String
  started_at : Nat
  completed_at : Nat
  duration_ms : Nat
  metadata : List (String × String)
  deriving DecidableEq, Repr

/-- The Council State record threaded through the pipeline (`CouncilState` of
`AGENT.md`); `theory_outputs` is an insertion-ordered association list. -/
structure CouncilState where
  raw_problem : String
  framed_problem : Option String
  im_summary : Option String
  theory_outputs : List (StageKey × String)
  debate_summary : Option String
  theory_ranking : Option String
  final_synthesis : Option String
  agent_traces : List AgentTrace
  deriving DecidableEq, Repr

/-- Initial Council State for a run: only `raw_problem` is set. -/
def initState (problem : String) : CouncilState :=
  { raw_problem := problem
    framed_problem := none
    im_summary := none
    theory_outputs := []
    debate_summary := none
    theory_ranking := none
    final_synthesis := none
    agent_traces := [] }

/-- Failure raised by the upstream completion capability. -/
structure ModelError where
  message : String
  deriving DecidableEq, Repr

/-- Modelled from the spec: the Agent Invoker wraps one call to the
language-model completion capability; it returns the stage's output text
together with the wall-clock milliseconds the call took, or fails with a
`ModelError`.  The elapsed time stands in for the difference between the
`completed_at` and `started_at` stamps taken around the call. -/
abbrev Invoker := StageKey → String → Except ModelError (String × Nat)

/-- Serialize the outputs accumulated so far for downstream stage input. -/
def joinOutputs (outs : List (StageKey × String)) : String :=
  String.intercalate "\n" (outs.map (fun p => stageName p.1 ++ ": " ++ p.2))

/-- Modelled from the spec: each stage's input is built from its declared
subset of upstream Council State fields (a theory agent consumes
`framed_problem` and `im_summary` only; the integrator consumes every
upstream output). -/
def stageInput (k : StageKey) (s : CouncilState) : String :=
  match k with
  | .problem_framer => s.raw_problem
  | .im_anchor => s.framed_problem.getD ""
  | .sct | .sdt | .wise | .reasoned_action | .env_impl =>
      s.framed_problem.getD "" ++ "\n" ++ s.im_summary.getD ""
  | .debate_moderator => joinOutputs s.theory_outputs
  | .theory_selector => s.debate_summary.getD "" ++ "\n" ++ joinOutputs s.theory_outputs
  | .integrator =>
      s.framed_problem.getD "" ++ "\n" ++ s.im_summary.getD "" ++ "\n" ++
        joinOutputs s.theory_outputs ++ "\n" ++ s.debate_summary.getD "" ++ "\n" ++
        s.theory_ranking.getD ""

/-- Modelled from the spec: each stage writes its output into exactly its
designated Council State field (a theory stage inserts into
`theory_outputs` under its own key). -/
def writeField (k : StageKey) (out : String) (s : CouncilState) : CouncilState :=
  match k with
  | .problem_framer => { s with framed_problem := some out }
  | .im_anchor => { s with im_summary := some out }
  | .sct => { s with theory_outputs := s.theory_outputs ++ [(.sct, out)] }
  | .sdt => { s with theory_outputs := s.theory_outputs ++ [(.sdt, out)] }
  | .wise => { s with theory_outputs := s.theory_outputs ++ [(.wise, out)] }
  | .reasoned_action =>
      { s with theory_outputs := s.theory_outputs ++ [(.reasoned_action, out)] }
  | .env_impl => { s with theory_outputs := s.theory_outputs ++ [(.env_impl, out)] }
  | .debate_moderator => { s with debate_summary := some out }
  | .theory_selector => { s with theory_ranking := some out }
  | .integrator => { s with final_synthesis := some out }

/-- Trace construction: `duration_ms` is always derived from the two
timestamps, never supplied independently. -/
def mkTrace (k : StageKey) (out : String) (t0 t1 : Nat) : AgentTrace :=
  { agent_key := k
    agent_label := stageLabel k
    output := out
    started_at := t0
    completed_at := t1
    duration_ms := t1 - t0
    metadata := [("category", stageCategory k)] }

/-- One successful stage transition: a copy of the state with the stage's own
field written and the completed trace appended. -/
def applyStage (k : StageKey) (out : String) (tr : AgentTrace) (s : CouncilState) :
    CouncilState :=
  { writeField k out s with agent_traces := s.agent_traces ++ [tr] }

/-- Result of driving a list of stages: final state, clock, the traces newly
produced in execution order, and the stage at which the run failed (if any). -/
structure ExecOut where
  state : CouncilState
  clock : Nat
  newTraces : List AgentTrace
  failedAt : Option StageKey
  deriving Repr

/-- Modelled from the spec: the Pipeline Executor drives the stages strictly
sequentially; each stage stamps `started_at`, calls the Agent Invoker, and on
success stamps `completed_at`, writes its field, and appends its trace.  On
failure the run stops without advancing further stages. -/
def execStages (inv : Invoker) : List StageKey → Nat → CouncilState → ExecOut
  | [], t, s => { state := s, clock := t, newTraces := [], failedAt := none }
  | k :: ks, t, s =>
    match inv k (stageInput k s) with
    | .error _ => { state := s, clock := t, newTraces := [], failedAt := some k }
    | .ok (out, elapsed) =>
      let tr := mkTrace k out t (t + elapsed)
      let r := execStages inv ks (t + elapsed) (applyStage k out tr s)
      { state := r.state, clock := r.clock, newTraces := tr :: r.newTraces,
        failedAt := r.failedAt }

/-- Lifecycle status of a run in the Session/Run Registry. -/
inductive RunStatus
  | pending
  | running
  | complete
  | aborted
  | failed
  deriving DecidableEq, Repr

/-- Events of the server-to-client named-event stream. -/
inductive StreamEvent
  | started (runId : String)
  | trace (runId : String) (tr : AgentTrace)
  | errorEvent (runId : String) (stage : StageKey)
  | completeEvent (runId : String) (finalState : CouncilState)
  deriving DecidableEq, Repr

/-- Whether an event is the terminal `complete` event. -/
def isCompleteEv : StreamEvent → Bool
  | .completeEvent _ _ => true
  | _ => false

/-- Outcome of one run: final state, registry status, and the full ordered
event stream emitted over the Streaming Transport. -/
structure RunResult where
  runId : String
  state : CouncilState
  status : RunStatus
  events : List StreamEvent
  deriving Repr

/-- Modelled from the spec: a full pipeline run over the fixed stage order.
On success the stream is `started`, one `trace` per completed stage in
completion order, then exactly one terminal `complete` carrying the final
Council State; on failure the run is marked `failed` and a terminal error
event closes the stream with no `complete`. -/
def runPipeline (inv : Invoker) (rid problem : String) : RunResult :=
  let out := execStages inv stageOrder 0 (initState problem)
  match out.failedAt with
  | none =>
      { runId := rid, state := out.state, status := .complete,
        events := .started rid :: out.newTraces.map (StreamEvent.trace rid) ++
          [.completeEvent rid out.state] }
  | some k =>
      { runId := rid, state := out.state, status := .failed,
        events := .started rid :: out.newTraces.map (StreamEvent.trace rid) ++
          [.errorEvent rid k] }

/-- Modelled from the spec: a run aborted by the caller after `n` stage
completions.  Abort stops awaiting further invoker results, closes the stream
without emitting `complete`, marks the run `aborted`, and does not roll back
traces already recorded. -/
def runAborted (inv : Invoker) (rid problem : String) (n : Nat) : RunResult :=
  let out := execStages inv (stageOrder.take n) 0 (initState problem)
  { runId := rid, state := out.state, status := .aborted,
    events := .started rid :: out.newTraces.map (StreamEvent.trace rid) }

/-- Deterministic stub Agent Invoker of the spec's scenario: echoes the stage
name with a hash of its input (modelled as the input length). -/
def stubInvoker : Invoker := fun k ctx =>
  .ok (stageName k ++ ":" ++ toString ctx.length, 1)

/-- The scenario input text of the spec. -/
def scenarioProblem : String :=
  "Students feel disconnected from first-year STEM courses"

/-- Stub Agent Invoker that raises `ModelError` on the third theory agent. -/
def failThirdTheory : Invoker := fun k ctx =>
  if k = .wise then .error { message := "ModelError" }
  else .ok (stageName k ++ ":" ++ toString ctx.length, 1)

/-! ## The client-side SSE consumer (`frontend/app/page.tsx`)

The browser receives the event stream as arbitrary byte chunks.  The consumer
appends each decoded chunk to a buffer, splits the buffer on the blank-line
delimiter, keeps the trailing (possibly incomplete) fragment as the new
buffer, and dispatches only the complete blocks.  Text is modelled as
`List Char`. -/

/-- The blank-line delimiter separating event blocks. -/
def sepChars : List Char := ['\n', '\n']

/-- Leftmost occurrence of the blank-line delimiter: returns the text before
it and the text after it, or `none` when the delimiter does not occur. -/
def splitFirst : List Char → Option (List Char × List Char)
  | [] => none
  | c :: cs =>
    if c = '\n' ∧ cs.head? = some '\n' then some ([], cs.tail)
    else
      match splitFirst cs with
      | none => none
      | some p => some (c :: p.1, p.2)

/-- Fuel-indexed iteration of `splitFirst`. -/
def splitBlocksFuel : Nat → List Char → List (List Char) × List Char
  | 0, l => ([], l)
  | fuel + 1, l =>
    match splitFirst l with
    | none => ([], l)
    | some p =>
      let r := splitBlocksFuel fuel p.2
      (p.1 :: r.1, r.2)

/-- The JavaScript expression `buffer.split("\n\n")` followed by popping the
last element: all delimiter-terminated blocks, plus the trailing fragment. -/
def splitBlocks (l : List Char) : List (List Char) × List Char :=
  splitBlocksFuel l.length l

/-- One `reader.read()` iteration of the consumer: append the chunk to the
buffer, parse every complete block, keep the incomplete remainder. -/
def feedChunk (st : List (List Char) × List Char) (chunk : List Char) :
    List (List Char) × List Char :=
  let r := splitBlocks (st.2 ++ chunk)
  (st.1 ++ r.1, r.2)

/-- The consumer's whole read loop over a sequence of received chunks,
starting from an empty buffer: returns every block it parsed, in order, and
the final buffer contents. -/
def consumeChunks (chunks : List (List Char)) : List (List Char) × List Char :=
  chunks.foldl feedChunk ([], [])

/-! ## Client replay of the stream versus the synchronous endpoint -/

/-- The client's accumulated view of a run: the traces appended by `trace`
events and the final state delivered by the `complete` event
(`frontend/app/page.tsx` event dispatch). -/
structure ClientView where
  traces : List AgentTrace
  finalReported : Option CouncilState
  deriving DecidableEq, Repr

/-- Dispatch of one stream event, as in the `handleSend` event loop: a
`trace` event appends its trace, the `complete` event records the full final
state, other events leave the view unchanged. -/
def applyEvent (v : ClientView) : StreamEvent → ClientView
  | .started _ => v
  | .trace _ tr => { v with traces := v.traces ++ [tr] }
  | .errorEvent _ _ => v
  | .completeEvent _ s => { v with finalReported := some s }

/-- Replaying a full event stream from the empty view. -/
def replayStream (evs : List StreamEvent) : ClientView :=
  evs.foldl applyEvent { traces := [], finalReported := none }

/-- Modelled from the spec: the synchronous endpoint runs the same pipeline
and returns the final Council State as a single structured response. -/
def syncResult (inv : Invoker) (rid p : String) : CouncilState :=
  (runPipeline inv rid p).state

/-! ## The four-section report renderer
(`frontend/components/four-section-report.tsx`) -/

/-- The four named section keys of the wire contract's `sections` mapping. -/
inductive SectionKey
  | problem_framing
  | theory_council_debate
  | intervention_mapping_guide
  | recommended_intervention_concepts
  deriving DecidableEq, Repr

/-- The fixed render order and headings (`SECTION_ORDER`). -/
def sectionLabel : SectionKey → String
  | .problem_framing => "1. Problem Framing"
  | .theory_council_debate => "2. Theory Council Debate"
  | .intervention_mapping_guide => "3. Intervention Mapping Guide"
  | .recommended_intervention_concepts => "4. Recommended Intervention Concept(s)"

/-- The order in which the four sections are rendered. -/
def sectionOrder : List SectionKey :=
  [.problem_framing, .theory_council_debate, .intervention_mapping_guide,
   .recommended_intervention_concepts]

/-- The `sections` mapping as received on the wire: each of the four named
sections is optional. -/
structure CouncilSections where
  problem_framing : Option String
  theory_council_debate : Option String
  intervention_mapping_guide : Option String
  recommended_intervention_concepts : Option String
  deriving DecidableEq, Repr

/-- Field access on the sections mapping. -/
def getSection (s : CouncilSections) : SectionKey → Option String
  | .problem_framing => s.problem_framing
  | .theory_council_debate => s.theory_council_debate
  | .intervention_mapping_guide => s.intervention_mapping_guide
  | .recommended_intervention_concepts => s.recommended_intervention_concepts

/-- Rendered body of one section: real content, or the "No content yet."
placeholder. -/
inductive RenderedBody
  | content (text : String)
  | placeholder
  deriving DecidableEq, Repr

/-- The renderer's body choice, mirroring the JavaScript truthiness test
`result.sections[key] ? ... : placeholder` (an absent section and an empty
string both render as the placeholder). -/
def renderBody : Option String → RenderedBody
  | some t => if t = "" then .placeholder else .content t
  | none => .placeholder

/-- The `FourSectionReport` component: one heading plus body per section, in
the fixed order, for any sections mapping. -/
def fourSectionReport (s : CouncilSections) : List (String × RenderedBody) :=
  sectionOrder.map (fun k => (sectionLabel k, renderBody (getSection s k)))

/-! ## The chat composer (`frontend/components/chat-composer.tsx`) -/

/-- Whether the `onSend` promise resolved or rejected. -/
inductive SendOutcome
  | resolved
  | rejected
  deriving DecidableEq, Repr

/-- Observable result of one submission: the arguments `onSend` was invoked
with, and the text field contents afterwards. -/
structure ComposerResult where
  calls : List String
  field : String
  deriving DecidableEq, Repr

/-- The JavaScript `String.prototype.trim`: strip leading and trailing
whitespace. -/
def jsTrim (s : String) : String :=
  ⟨((s.data.dropWhile Char.isWhitespace).reverse.dropWhile Char.isWhitespace).reverse⟩

/-- The composer's `handleSend`: trim the message; if the trimmed text is
empty return without calling `onSend`; otherwise call `onSend` once with the
trimmed text and clear the field only after the promise resolves (on
rejection the typed text is preserved). -/
def composerSend (message : String) (outcome : SendOutcome) : ComposerResult :=
  let trimmed := jsTrim message
  if trimmed = "" then { calls := [], field := message }
  else
    match outcome with
    | .resolved => { calls := [trimmed], field := "" }
    | .rejected => { calls := [trimmed], field := message }

/-! ## Concrete runs used by witnesses -/

/-- The scenario run of the spec, under the echoing stub invoker. -/
def scenarioRun : RunResult := runPipeline stubInvoker "run-1" scenarioProblem

/-- The failing scenario run: `ModelError` at the third theory agent. -/
def failedRun : RunResult := runPipeline failThirdTheory "run-2" scenarioProblem

/-- A default trace used only as the fallback of list lookups in witnesses. -/
def defaultTrace : AgentTrace := mkTrace .problem_framer "" 0 0

/-- The first trace of the scenario run. -/
def scenarioFirstTrace : AgentTrace := scenarioRun.state.agent_traces.getD 0 defaultTrace

/-- The last (integrator) trace of the scenario run. -/
def scenarioLastTrace : AgentTrace := scenarioRun.state.agent_traces.getD 9 defaultTrace

/-- A sections mapping in which every named section is missing. -/
def emptySections : CouncilSections :=
  { problem_framing := none
    theory_council_debate := none
    intervention_mapping_guide := none
    recommended_intervention_concepts := none }

end PsychAgents

namespace PsychAgents

/-! ## Field characterization of one stage transition -/

lemma applyStage_raw (k : StageKey) (out : String) (tr : AgentTrace) (s : CouncilState) :
    (applyStage k out tr s).raw_problem = s.raw_problem := by
  cases k <;> simp [applyStage, writeField]

lemma applyStage_framed (k : StageKey) (out : String) (tr : AgentTrace) (s : CouncilState) :
    (applyStage k out tr s).framed_problem =
      if k = .problem_framer then some out else s.framed_problem := by
  cases k <;> simp [applyStage, writeField]

lemma applyStage_im (k : StageKey) (out : String) (tr : AgentTrace) (s : CouncilState) :
    (applyStage k out tr s).im_summary =
      if k = .im_anchor then some out else s.im_summary := by
  cases k <;> simp [applyStage, writeField]

lemma applyStage_theory (k : StageKey) (out : String) (tr : AgentTrace) (s : CouncilState) :
    (applyStage k out tr s).theory_outputs =
      if k ∈ theoryKeys then s.theory_outputs ++ [(k, out)] else s.theory_outputs := by
  cases k <;> simp [applyStage, writeField, theoryKeys]

lemma applyStage_debate (k : StageKey) (out : String) (tr : AgentTrace) (s : CouncilState) :
    (applyStage k out tr s).debate_summary =
      if k = .debate_moderator then some out else s.debate_summary := by
  cases k <;> simp [applyStage, writeField]

lemma applyStage_ranking (k : StageKey) (out : String) (tr : AgentTrace) (s : CouncilState) :
    (applyStage k out tr s).theory_ranking =
      if k = .theory_selector then some out else s.theory_ranking := by
  cases k <;> simp [applyStage, writeField]

lemma applyStage_synthesis (k : StageKey) (out : String) (tr : AgentTrace) (s : CouncilState) :
    (applyStage k out tr s).final_synthesis =
      if k = .integrator then some out else s.final_synthesis := by
  cases k <;> simp [applyStage, writeField]

lemma applyStage_traces (k : StageKey) (out : String) (tr : AgentTrace) (s : CouncilState) :
    (applyStage k out tr s).agent_traces = s.agent_traces ++ [tr] := by
  cases k <;> simp [applyStage, writeField]

/-! ## Structural lemmas about the executor -/

lemma exec_traces (inv : Invoker) :
    ∀ (ks : List StageKey) (t : Nat) (s : CouncilState),
      (execStages inv ks t s).state.agent_traces =
        s.agent_traces ++ (execStages inv ks t s).newTraces := by
  intro ks
  induction ks with
  | nil => intro t s; simp [execStages]
  | cons k ks ih =>
      intro t s
      simp only [execStages]
      cases hk : inv k (stageInput k s) with
      | error e => simp
      | ok v =>
          obtain ⟨out, elapsed⟩ := v
          simp only
          rw [ih, applyStage_traces]
          simp

lemma exec_keys_of_ok (inv : Invoker) :
    ∀ (ks : List StageKey) (t : Nat) (s : CouncilState),
      (execStages inv ks t s).failedAt = none →
      (execStages inv ks t s).newTraces.map (fun tr => tr.agent_key) = ks := by
  intro ks
  induction ks with
  | nil => intro t s _; simp [execStages]
  | cons k ks ih =>
      intro t s h
      simp only [execStages] at h ⊢
      cases hk : inv k (stageInput k s) with
      | error e => rw [hk] at h; simp at h
      | ok v =>
          obtain ⟨out, elapsed⟩ := v
          rw [hk] at h
          simp only at h
          have hkey : (mkTrace k out t (t + elapsed)).agent_key = k := rfl
          simp only [List.map_cons, hkey]
          rw [ih _ _ h]

lemma exec_keys_append (inv : Invoker) :
    ∀ (ks : List StageKey) (t : Nat) (s : CouncilState),
      ∃ rest, (execStages inv ks t s).newTraces.map (fun tr => tr.agent_key) ++ rest = ks := by
  intro ks
  induction ks with
  | nil => intro t s; exact ⟨[], by simp [execStages]⟩
  | cons k ks ih =>
      intro t s
      simp only [execStages]
      cases hk : inv k (stageInput k s) with
      | error e => exact ⟨k :: ks, by simp⟩
      | ok v =>
          obtain ⟨out, elapsed⟩ := v
          obtain ⟨rest, hrest⟩ := ih (t + elapsed)
            (applyStage k out (mkTrace k out t (t + elapsed)) s)
          refine ⟨rest, ?_⟩
          have hkey : (mkTrace k out t (t + elapsed)).agent_key = k := rfl
          simp only [List.map_cons, hkey, List.cons_append]
          rw [hrest]

lemma exec_preserves (inv : Invoker) (P : CouncilState → Prop)
    (hmono : ∀ k out tr s, P s → P (applyStage k out tr s)) :
    ∀ (ks : List StageKey) (t : Nat) (s : CouncilState),
      P s → P (execStages inv ks t s).state := by
  intro ks
  induction ks with
  | nil => intro t s h; simpa [execStages] using h
  | cons k ks ih =>
      intro t s h
      simp only [execStages]
      cases hk : inv k (stageInput k s) with
      | error e => simpa using h
      | ok v =>
          obtain ⟨out, elapsed⟩ := v
          exact ih _ _ (hmono _ _ _ _ h)

lemma exec_establishes (inv : Invoker) (P : CouncilState → Prop) (k0 : StageKey)
    (hmono : ∀ k out tr s, P s → P (applyStage k out tr s))
    (hset : ∀ out tr s, P (applyStage k0 out tr s)) :
    ∀ (ks : List StageKey) (t : Nat) (s : CouncilState),
      k0 ∈ (execStages inv ks t s).newTraces.map (fun tr => tr.agent_key) →
      P (execStages inv ks t s).state := by
  intro ks
  induction ks with
  | nil => intro t s h; simp [execStages] at h
  | cons k ks ih =>
      intro t s h
      simp only [execStages] at h ⊢
      cases hk : inv k (stageInput k s) with
      | error e => rw [hk] at h; simp at h
      | ok v =>
          obtain ⟨out, elapsed⟩ := v
          rw [hk] at h
          simp only [List.map_cons, mkTrace, List.mem_cons] at h
          rcases h with h | h
          · subst h
            exact exec_preserves inv P hmono _ _ _ (hset _ _ _)
          · exact ih _ _ h

lemma exec_newTraces_duration (inv : Invoker) :
    ∀ (ks : List StageKey) (t : Nat) (s : CouncilState),
      ∀ tr ∈ (execStages inv ks t s).newTraces,
        tr.duration_ms = tr.completed_at - tr.started_at := by
  intro ks
  induction ks with
  | nil => intro t s tr h; simp [execStages] at h
  | cons k ks ih =>
      intro t s tr h
      simp only [execStages] at h
      cases hk : inv k (stageInput k s) with
      | error e => rw [hk] at h; simp at h
      | ok v =>
          obtain ⟨out, elapsed⟩ := v
          rw [hk] at h
          simp only [List.mem_cons] at h
          rcases h with h | h
          · subst h; simp [mkTrace]
          · exact ih _ _ _ h

/-! ## Lemmas about the full pipeline wrapper -/

lemma runPipeline_state (inv : Invoker) (rid p : String) :
    (runPipeline inv rid p).state = (execStages inv stageOrder 0 (initState p)).state := by
  unfold runPipeline
  cases h : (execStages inv stageOrder 0 (initState p)).failedAt <;> simp [h]

lemma runPipeline_traces (inv : Invoker) (rid p : String) :
    (runPipeline inv rid p).state.agent_traces =
      (execStages inv stageOrder 0 (initState p)).newTraces := by
  rw [runPipeline_state, exec_traces]
  simp [initState]

lemma runPipeline_complete_iff (inv : Invoker) (rid p : String) :
    (runPipeline inv rid p).status = .complete ↔
      (execStages inv stageOrder 0 (initState p)).failedAt = none := by
  unfold runPipeline
  cases h : (execStages inv stageOrder 0 (initState p)).failedAt <;> simp [h]

lemma runPipeline_ok_events (inv : Invoker) (rid p : String)
    (h : (runPipeline inv rid p).status = .complete) :
    (runPipeline inv rid p).events =
      .started rid ::
        (runPipeline inv rid p).state.agent_traces.map (StreamEvent.trace rid) ++
        [.completeEvent rid (runPipeline inv rid p).state] := by
  have hf := (runPipeline_complete_iff inv rid p).mp h
  have htr := runPipeline_traces inv rid p
  have hst := runPipeline_state inv rid p
  rw [htr, hst]
  simp only [runPipeline, hf]

/-- A list of executed stage keys that is an initial segment of `stageOrder`
and contains `integrator` must be all of `stageOrder`. -/
lemma keys_complete (keys rest : List StageKey)
    (hsum : keys ++ rest = stageOrder) (hmem : StageKey.integrator ∈ keys) :
    keys = stageOrder := by
  rcases rest with _ | ⟨r, rs⟩
  · simpa using hsum
  · exfalso
    have hlen10 : stageOrder.length = 10 := by decide
    have hlen : keys.length ≤ 9 := by
      have hc := congrArg List.length hsum
      simp [hlen10] at hc
      omega
    have hk : keys = stageOrder.take keys.length := by
      have hc := congrArg (List.take keys.length) hsum
      rw [List.take_left] at hc
      exact hc
    have h9 : StageKey.integrator ∈ stageOrder.take 9 := by
      have h' : StageKey.integrator ∈ stageOrder.take keys.length := hk ▸ hmem
      have heq : stageOrder.take keys.length = (stageOrder.take 9).take keys.length := by
        rw [List.take_take]
        congr 1
        omega
      rw [heq] at h'
      exact List.take_subset _ _ h'
    simp [stageOrder, theoryKeys] at h9

/-! ## Lemmas about the SSE chunk consumer -/

lemma splitFirst_eq :
    ∀ (l : List Char) p, splitFirst l = some p → l = p.1 ++ sepChars ++ p.2 := by
  intro l
  induction l with
  | nil => intro p h; simp [splitFirst] at h
  | cons c cs ih =>
      intro p h
      simp only [splitFirst] at h
      split at h
      · rename_i hc
        obtain ⟨hc1, hc2⟩ := hc
        cases cs with
        | nil => simp at hc2
        | cons d ds =>
            simp only [List.head?] at hc2
            injection hc2 with hd
            injection h with hp
            subst hc1
            subst hd
            rw [← hp]
            simp [sepChars]
      · cases hcs : splitFirst cs with
        | none => rw [hcs] at h; simp at h
        | some q =>
            rw [hcs] at h
            simp only [Option.some.injEq] at h
            rw [← h]
            have := ih q hcs
            simp only [List.cons_append]
            rw [← this]

lemma splitFirst_length (l : List Char) (p : List Char × List Char)
    (h : splitFirst l = some p) : p.2.length < l.length := by
  have := splitFirst_eq l p h
  subst this
  simp [sepChars]
  omega

lemma splitBlocksFuel_spec :
    ∀ (fuel : Nat) (l : List Char), l.length ≤ fuel →
      ((splitBlocksFuel fuel l).1.map (fun b => b ++ sepChars)).join ++
          (splitBlocksFuel fuel l).2 = l ∧
        splitFirst (splitBlocksFuel fuel l).2 = none := by
  intro fuel
  induction fuel with
  | zero =>
      intro l hl
      have : l = [] := List.length_eq_zero.mp (Nat.le_zero.mp hl)
      subst this
      simp [splitBlocksFuel, splitFirst]
  | succ fuel ih =>
      intro l hl
      simp only [splitBlocksFuel]
      cases hs : splitFirst l with
      | none => simpa [hs] using hs
      | some p =>
          have hlen : p.2.length < l.length := splitFirst_length l p hs
          have hrec := ih p.2 (by omega)
          simp only [List.map_cons, List.join_cons, List.append_assoc]
          refine ⟨?_, hrec.2⟩
          rw [hrec.1, ← List.append_assoc]
          exact (splitFirst_eq l p hs).symm

lemma splitBlocks_spec (l : List Char) :
    ((splitBlocks l).1.map (fun b => b ++ sepChars)).join ++ (splitBlocks l).2 = l ∧
      splitFirst (splitBlocks l).2 = none :=
  splitBlocksFuel_spec l.length l (Nat.le_refl _)

lemma feedChunk_join (st : List (List Char) × List Char) (c : List Char) :
    ((feedChunk st c).1.map (fun b => b ++ sepChars)).join ++ (feedChunk st c).2 =
      ((st.1.map (fun b => b ++ sepChars)).join ++ st.2) ++ c := by
  simp only [feedChunk, List.map_append, List.join_append]
  rw [List.append_assoc, (splitBlocks_spec (st.2 ++ c)).1, List.append_assoc]

lemma consumeChunks_invariant :
    ∀ (chunks : List (List Char)) (st : List (List Char) × List Char),
      ((chunks.foldl feedChunk st).1.map (fun b => b ++ sepChars)).join ++
          (chunks.foldl feedChunk st).2 =
        ((st.1.map (fun b => b ++ sepChars)).join ++ st.2) ++ chunks.join := by
  intro chunks
  induction chunks with
  | nil => intro st; simp
  | cons c cs ih =>
      intro st
      simp only [List.foldl_cons, List.join_cons]
      rw [ih, feedChunk_join]
      simp [List.append_assoc]

lemma consumeChunks_buffer :
    ∀ (chunks : List (List Char)) (st : List (List Char) × List Char),
      splitFirst st.2 = none → splitFirst (chunks.foldl feedChunk st).2 = none := by
  intro chunks
  induction chunks with
  | nil => intro st h; simpa using h
  | cons c cs ih =>
      intro st h
      simp only [List.foldl_cons]
      exact ih _ ((splitBlocks_spec (st.2 ++ c)).2)

/-! ## Lemmas about client replay -/

lemma replay_traces (rid : String) :
    ∀ (l : List AgentTrace) (v : ClientView),
      (l.map (StreamEvent.trace rid)).foldl applyEvent v =
        { v with traces := v.traces ++ l } := by
  intro l
  induction l with
  | nil => intro v; simp
  | cons tr l ih =>
      intro v
      simp only [List.map_cons, List.foldl_cons, applyEvent]
      rw [ih]
      simp

/-! ## Claim theorems -/

/-- C1 (counterexample): the scenario run under the echoing stub invoker does
not record 8 traces — the fixed stage configuration (framer, anchor, five
theory agents, debate, selector, integrator) yields 10. -/
theorem c1_counterexample : ¬ (scenarioRun.state.agent_traces.length = 8) := by
  decide

/-- C1 (amended): every run reaching the terminal state records one trace per
configured stage — 10 traces (framer, anchor, the five theory agents, debate,
selector, integrator) — whose `agent_key` sequence equals the fixed stage
order for every invoker (so it is identical across repeated runs with the
same configuration); and in the spec's scenario the run completes with 10
traces, a non-empty `final_synthesis`, and `theory_outputs` holding exactly
the five configured theory keys. -/
theorem c1_stage_sequence :
    (∀ (inv : Invoker) (rid p : String),
        (runPipeline inv rid p).status = .complete →
        (runPipeline inv rid p).state.agent_traces.map (fun tr => tr.agent_key) =
          stageOrder) ∧
    (scenarioRun.status = .complete ∧
      scenarioRun.state.agent_traces.length = 10 ∧
      scenarioRun.state.final_synthesis.getD "" ≠ "" ∧
      scenarioRun.state.theory_outputs.map Prod.fst = theoryKeys) := by
  constructor
  · intro inv rid p h
    rw [runPipeline_traces]
    exact exec_keys_of_ok inv stageOrder 0 (initState p)
      ((runPipeline_complete_iff inv rid p).mp h)
  · exact ⟨by decide, by decide, by decide, by decide⟩

/-- C1 witness: the general ordering conjunct instantiated at the scenario. -/
theorem c1_stage_sequence_witness :
    (runPipeline stubInvoker "run-1" scenarioProblem).state.agent_traces.map
      (fun tr => tr.agent_key) = stageOrder :=
  c1_stage_sequence.1 stubInvoker "run-1" scenarioProblem (by decide)

/-- C2: a `ModelError` at the third theory agent leaves exactly two theory
outputs, no `debate_summary`, no `final_synthesis`, a `failed` status, and no
integrator trace; and in any run, an integrator trace exists only if every
declared upstream field the integrator consumes is present. -/
theorem c2_failure_isolation :
    (failedRun.status = .failed ∧
      failedRun.state.theory_outputs.length = 2 ∧
      failedRun.state.debate_summary = none ∧
      failedRun.state.final_synthesis = none ∧
      ∀ tr ∈ failedRun.state.agent_traces, ¬ (tr.agent_key = .integrator)) ∧
    (∀ (inv : Invoker) (rid p : String),
        (∃ tr ∈ (runPipeline inv rid p).state.agent_traces,
            tr.agent_key = .integrator) →
        (runPipeline inv rid p).state.framed_problem.isSome ∧
        (runPipeline inv rid p).state.im_summary.isSome ∧
        (runPipeline inv rid p).state.debate_summary.isSome ∧
        (runPipeline inv rid p).state.theory_ranking.isSome ∧
        ∀ k ∈ theoryKeys,
          k ∈ (runPipeline inv rid p).state.theory_outputs.map Prod.fst) := by
  constructor
  · exact ⟨by decide, by decide, by decide, by decide, by decide⟩
  · intro inv rid p h
    obtain ⟨tr, htr, hkey⟩ := h
    rw [runPipeline_traces] at htr
    have hkeys : StageKey.integrator ∈
        (execStages inv stageOrder 0 (initState p)).newTraces.map
          (fun tr => tr.agent_key) :=
      List.mem_map.mpr ⟨tr, htr, hkey⟩
    obtain ⟨rest, hrest⟩ := exec_keys_append inv stageOrder 0 (initState p)
    have hall := keys_complete _ rest hrest hkeys
    rw [runPipeline_state]
    refine ⟨?_, ?_, ?_, ?_, ?_⟩
    · exact exec_establishes inv (fun s => s.framed_problem.isSome) .problem_framer
        (fun k out tr s hs => by simp only [applyStage_framed]; split <;> simp_all)
        (fun out tr s => by simp [applyStage_framed])
        stageOrder 0 (initState p) (by rw [hall]; decide)
    · exact exec_establishes inv (fun s => s.im_summary.isSome) .im_anchor
        (fun k out tr s hs => by simp only [applyStage_im]; split <;> simp_all)
        (fun out tr s => by simp [applyStage_im])
        stageOrder 0 (initState p) (by rw [hall]; decide)
    · exact exec_establishes inv (fun s => s.debate_summary.isSome) .debate_moderator
        (fun k out tr s hs => by simp only [applyStage_debate]; split <;> simp_all)
        (fun out tr s => by simp [applyStage_debate])
        stageOrder 0 (initState p) (by rw [hall]; decide)
    · exact exec_establishes inv (fun s => s.theory_ranking.isSome) .theory_selector
        (fun k out tr s hs => by simp only [applyStage_ranking]; split <;> simp_all)
        (fun out tr s => by simp [applyStage_ranking])
        stageOrder 0 (initState p) (by rw [hall]; decide)
    · intro k hk
      refine exec_establishes inv
        (fun s => k ∈ s.theory_outputs.map Prod.fst) k
        (fun j out tr s hs => by
          simp only [applyStage_theory]
          split
          · simp only [List.map_append]
            exact List.mem_append_left _ hs
          · exact hs)
        (fun out tr s => by
          simp only [applyStage_theory, if_pos hk]
          simp)
        stageOrder 0 (initState p) ?_
      rw [hall]
      fin_cases hk <;> decide

set_option maxRecDepth 8000 in
/-- C2 witness: the upstream-field guard instantiated at a completed run
whose integrator trace exists. -/
theorem c2_failure_isolation_witness :
    (runPipeline stubInvoker "run-1" scenarioProblem).state.framed_problem.isSome ∧
    (runPipeline stubInvoker "run-1" scenarioProblem).state.im_summary.isSome ∧
    (runPipeline stubInvoker "run-1" scenarioProblem).state.debate_summary.isSome ∧
    (runPipeline stubInvoker "run-1" scenarioProblem).state.theory_ranking.isSome ∧
    ∀ k ∈ theoryKeys,
      k ∈ (runPipeline stubInvoker "run-1" scenarioProblem).state.theory_outputs.map
        Prod.fst :=
  c2_failure_isolation.2 stubInvoker "run-1" scenarioProblem
    ⟨scenarioLastTrace, by decide, by decide⟩

/-- C3: a run aborted by the caller after `n` stage completions keeps exactly
the `n` traces already recorded (no rollback), is marked `aborted` in the
registry, and its stream never carries a `complete` event. -/
theorem c3_abort_semantics (inv : Invoker) (rid p : String) (n : Nat)
    (hn : n < stageOrder.length)
    (hok : (execStages inv (stageOrder.take n) 0 (initState p)).failedAt = none) :
    (runAborted inv rid p n).state.agent_traces.length = n ∧
    (runAborted inv rid p n).status = .aborted ∧
    ∀ e ∈ (runAborted inv rid p n).events, isCompleteEv e = false := by
  refine ⟨?_, by simp [runAborted], ?_⟩
  · have htr := exec_traces inv (stageOrder.take n) 0 (initState p)
    have hkeys := exec_keys_of_ok inv (stageOrder.take n) 0 (initState p) hok
    have hlen : (execStages inv (stageOrder.take n) 0 (initState p)).newTraces.length
        = n := by
      have := congrArg List.length hkeys
      simpa [List.length_take, Nat.min_eq_left (Nat.le_of_lt hn)] using this
    simp only [runAborted]
    rw [htr]
    have hinit : (initState p).agent_traces = [] := rfl
    rw [hinit]
    simpa using hlen
  · intro e he
    simp only [runAborted, List.mem_cons, List.mem_map] at he
    rcases he with rfl | ⟨tr, _, rfl⟩ <;> rfl

/-- C3 witness: abort after three completed stages under the stub invoker. -/
theorem c3_abort_semantics_witness :
    (runAborted stubInvoker "run-3" scenarioProblem 3).state.agent_traces.length = 3 ∧
    (runAborted stubInvoker "run-3" scenarioProblem 3).status = .aborted ∧
    ∀ e ∈ (runAborted stubInvoker "run-3" scenarioProblem 3).events,
      isCompleteEv e = false :=
  c3_abort_semantics stubInvoker "run-3" scenarioProblem 3 (by decide) (by decide)

/-- C4: on a successful run the stream is exactly `started`, the completed
traces in completion order, then one `complete` event carrying the full final
state and the run identifier; `complete` occurs exactly once, is the last
event of the stream, and no event before the last one is a `complete` (so it
never precedes any theory-agent trace event). -/
theorem c4_stream_ordering (inv : Invoker) (rid p : String)
    (h : (runPipeline inv rid p).status = .complete) :
    (runPipeline inv rid p).events =
      .started rid ::
        (runPipeline inv rid p).state.agent_traces.map (StreamEvent.trace rid) ++
        [.completeEvent rid (runPipeline inv rid p).state] ∧
    (runPipeline inv rid p).events.countP isCompleteEv = 1 ∧
    (runPipeline inv rid p).events.getLast? =
      some (.completeEvent rid (runPipeline inv rid p).state) ∧
    ∀ e ∈ (runPipeline inv rid p).events.dropLast, isCompleteEv e = false := by
  have hsh := runPipeline_ok_events inv rid p h
  refine ⟨hsh, ?_, ?_, ?_⟩
  · rw [hsh]
    simp [List.countP_cons, List.countP_append, List.countP_map, isCompleteEv,
      Function.comp]
  · rw [hsh, List.getLast?_concat]
  · intro e he
    rw [hsh, List.dropLast_concat] at he
    rcases List.mem_cons.mp he with rfl | he
    · rfl
    · obtain ⟨tr, _, rfl⟩ := List.mem_map.mp he
      rfl

/-- C4 witness: the stream-shape guarantees at the completed scenario run. -/
theorem c4_stream_ordering_witness :
    (runPipeline stubInvoker "run-1" scenarioProblem).events.countP isCompleteEv = 1 ∧
    (runPipeline stubInvoker "run-1" scenarioProblem).events.getLast? =
      some (.completeEvent "run-1" (runPipeline stubInvoker "run-1" scenarioProblem).state) :=
  ⟨(c4_stream_ordering stubInvoker "run-1" scenarioProblem (by decide)).2.1,
   (c4_stream_ordering stubInvoker "run-1" scenarioProblem (by decide)).2.2.1⟩

/-- C5: for every trace of any run, `duration_ms` equals
`completed_at - started_at` exactly (it is derived from the two timestamps by
`mkTrace` and never supplied independently). -/
theorem c5_duration_derived (inv : Invoker) (rid p : String) :
    ∀ tr ∈ (runPipeline inv rid p).state.agent_traces,
      tr.duration_ms = tr.completed_at - tr.started_at := by
  intro tr htr
  rw [runPipeline_traces] at htr
  exact exec_newTraces_duration inv stageOrder 0 (initState p) tr htr

set_option maxRecDepth 8000 in
/-- C5 witness: the derivation law at the first trace of the scenario run. -/
theorem c5_duration_derived_witness :
    scenarioFirstTrace.duration_ms =
      scenarioFirstTrace.completed_at - scenarioFirstTrace.started_at :=
  c5_duration_derived stubInvoker "run-1" scenarioProblem scenarioFirstTrace (by decide)

/-- C6: one stage transition writes exactly its designated field — every
other Council State field is returned unchanged, `raw_problem` is never
written, a theory stage only appends its own entry to `theory_outputs`, and
the trace list is only appended to; consequently the whole pipeline preserves
`raw_problem`. -/
theorem c6_frame_effect :
    (∀ (k : StageKey) (out : String) (tr : AgentTrace) (s : CouncilState),
        (applyStage k out tr s).raw_problem = s.raw_problem ∧
        (applyStage k out tr s).framed_problem =
          (if k = .problem_framer then some out else s.framed_problem) ∧
        (applyStage k out tr s).im_summary =
          (if k = .im_anchor then some out else s.im_summary) ∧
        (applyStage k out tr s).theory_outputs =
          (if k ∈ theoryKeys then s.theory_outputs ++ [(k, out)]
           else s.theory_outputs) ∧
        (applyStage k out tr s).debate_summary =
          (if k = .debate_moderator then some out else s.debate_summary) ∧
        (applyStage k out tr s).theory_ranking =
          (if k = .theory_selector then some out else s.theory_ranking) ∧
        (applyStage k out tr s).final_synthesis =
          (if k = .integrator then some out else s.final_synthesis) ∧
        (applyStage k out tr s).agent_traces = s.agent_traces ++ [tr]) ∧
    (∀ (inv : Invoker) (rid p : String),
        (runPipeline inv rid p).state.raw_problem = p) := by
  constructor
  · intro k out tr s
    exact ⟨applyStage_raw k out tr s, applyStage_framed k out tr s,
      applyStage_im k out tr s, applyStage_theory k out tr s,
      applyStage_debate k out tr s, applyStage_ranking k out tr s,
      applyStage_synthesis k out tr s, applyStage_traces k out tr s⟩
  · intro inv rid p
    rw [runPipeline_state]
    exact exec_preserves inv (fun s => s.raw_problem = p)
      (fun k out tr s hs => by simp only [applyStage_raw]; exact hs)
      stageOrder 0 (initState p) rfl

/-- C7: for every way the stream is cut into byte chunks, every block the
consumer parses is followed by its blank-line delimiter within the text
received so far (their delimiter-terminated concatenation plus the retained
buffer reconstructs exactly the received text), and the retained buffer never
contains a delimiter — so the payload of a partially received event is never
parsed. -/
theorem c7_chunk_buffering (chunks : List (List Char)) :
    ((consumeChunks chunks).1.map (fun b => b ++ sepChars)).join ++
        (consumeChunks chunks).2 = chunks.join ∧
    splitFirst (consumeChunks chunks).2 = none := by
  constructor
  · have h := consumeChunks_invariant chunks ([], [])
    simpa [consumeChunks] using h
  · exact consumeChunks_buffer chunks ([], []) rfl

/-- C8: replaying the stream of a successful run — every `trace` event then
the `complete` event — yields exactly the final Council State returned by the
synchronous endpoint, including an identical trace list (transport
invariance). -/
theorem c8_transport_invariance (inv : Invoker) (rid p : String)
    (h : (runPipeline inv rid p).status = .complete) :
    replayStream (runPipeline inv rid p).events =
      { traces := (syncResult inv rid p).agent_traces,
        finalReported := some (syncResult inv rid p) } := by
  rw [replayStream, runPipeline_ok_events inv rid p h]
  simp only [List.foldl_append, List.foldl_cons, List.foldl_nil]
  rw [show applyEvent { traces := [], finalReported := none } (.started rid) =
    { traces := [], finalReported := none } from rfl]
  rw [replay_traces]
  simp [applyEvent, syncResult]

/-- C8 witness: stream replay equals the synchronous result at the scenario
run. -/
theorem c8_transport_invariance_witness :
    replayStream (runPipeline stubInvoker "run-1" scenarioProblem).events =
      { traces := (syncResult stubInvoker "run-1" scenarioProblem).agent_traces,
        finalReported := some (syncResult stubInvoker "run-1" scenarioProblem) } :=
  c8_transport_invariance stubInvoker "run-1" scenarioProblem (by decide)

/-- C9: the report renderer always produces the four fixed section headings
in order, and renders any missing section as the placeholder rather than
raising an error. -/
theorem c9_sections_tolerant (s : CouncilSections) :
    (fourSectionReport s).map Prod.fst =
      ["1. Problem Framing", "2. Theory Council Debate",
       "3. Intervention Mapping Guide",
       "4. Recommended Intervention Concept(s)"] ∧
    ∀ k, getSection s k = none →
      (sectionLabel k, RenderedBody.placeholder) ∈ fourSectionReport s := by
  constructor
  · simp [fourSectionReport, sectionOrder, sectionLabel]
  · intro k hk
    have hmem : k ∈ sectionOrder := by cases k <;> simp [sectionOrder]
    have hin : (sectionLabel k, renderBody (getSection s k)) ∈ fourSectionReport s :=
      List.mem_map_of_mem _ hmem
    rw [hk] at hin
    simpa [renderBody] using hin

/-- C9 witness: every section missing still yields the four headings and the
placeholder body. -/
theorem c9_sections_tolerant_witness :
    (fourSectionReport emptySections).map Prod.fst =
      ["1. Problem Framing", "2. Theory Council Debate",
       "3. Intervention Mapping Guide",
       "4. Recommended Intervention Concept(s)"] ∧
    (sectionLabel .problem_framing, RenderedBody.placeholder) ∈
      fourSectionReport emptySections :=
  ⟨(c9_sections_tolerant emptySections).1,
   (c9_sections_tolerant emptySections).2 .problem_framing rfl⟩

/-- C10: one submission invokes `onSend` at most once; a message that trims
to the empty string never invokes it (and the field keeps the typed text);
otherwise `onSend` receives exactly the trimmed text, the field is cleared
only when the promise resolves, and the typed text is preserved when it
rejects. -/
theorem c10_composer_send (m : String) (o : SendOutcome) :
    (composerSend m o).calls.length ≤ 1 ∧
    (jsTrim m = "" → (composerSend m o).calls = [] ∧ (composerSend m o).field = m) ∧
    (¬ (jsTrim m = "") → (composerSend m o).calls = [jsTrim m]) ∧
    (¬ (jsTrim m = "") → o = .resolved → (composerSend m o).field = "") ∧
    (¬ (jsTrim m = "") → o = .rejected → (composerSend m o).field = m) := by
  by_cases h : jsTrim m = ""
  · simp [composerSend, h]
  · cases o <;> simp [composerSend, h]

/-- C10 witness: a padded message is sent trimmed and cleared on resolve; a
whitespace-only message is never sent; a rejected send preserves the text. -/
theorem c10_composer_send_witness :
    (composerSend "  hi  " SendOutcome.resolved).calls = [jsTrim "  hi  "] ∧
    (composerSend "  hi  " SendOutcome.resolved).field = "" ∧
    (composerSend "   " SendOutcome.rejected).calls = [] ∧
    (composerSend "  hi  " SendOutcome.rejected).field = "  hi  " :=
  ⟨(c10_composer_send "  hi  " .resolved).2.2.1 (by decide),
   (c10_composer_send "  hi  " .resolved).2.2.2.1 (by decide) rfl,
   ((c10_composer_send "   " .rejected).2.1 (by decide)).1,
   (c10_composer_send "  hi  " .rejected).2.2.2.2 (by decide) rfl⟩

end PsychAgents
